import Mathlib

/-!
Verification of the data-aggregation engine of the backend repository.

The definitions below are a shallow embedding of the Rust source:

* `src/external/mod.rs` — price oracle (`get_price_and_decimals`,
  `get_balances`), holder-count estimator (`get_number_of_token_holders`),
  windowed aggregators (`calculate_trading_volume`,
  `get_daily_active_users`, `get_weekly_active_users`) and
  `calculate_market_cap`;
* `src/database/mod.rs` — attribute typing (`get_type`, `parse_value`);
* `src/models/project.rs` — `Project::get_int` and friends;
* `src/scheduler/mod.rs` — the per-job tick loop (`run_task` and the
  `update_*` handlers).

Remote HTTP/GraphQL endpoints are modelled as explicit inputs (either a
plain value per probe, or a `fetch : Nat → Except String Page` oracle
mapping a pagination offset to the page the remote would return).  Rust
`f64` arithmetic is modelled over `ℚ`; machine integers are `Int`/`Nat`
with explicit wrapping where the source casts (`as i32`).  Asynchronous
fan-out is modelled by processing the spawned tasks in spawn order, which
is value-equivalent here because every merge operation used by the source
(numeric sum, set union) is commutative and the source joins all tasks of
a batch before inspecting any result.  Non-terminating Rust `while` loops
are modelled with an explicit fuel parameter counting loop iterations:
`none` means the loop is still running after that many iterations.
-/

namespace Backend

deriving instance DecidableEq for Except

/-! ## Price oracle (`src/external/mod.rs`, `get_price_and_decimals`) -/

/-- The reference stablecoin `USDT` (`src/external/mod.rs` line 19). -/
def USDT : String :=
  "0xf22bede237a07e121b56d91a491eb7bcdfd1f5907926a9e58338f964a01b17fa::asset::USDT"

/-- The reference stablecoin `USDC` (`src/external/mod.rs` line 21). -/
def USDC : String :=
  "0xf22bede237a07e121b56d91a491eb7bcdfd1f5907926a9e58338f964a01b17fa::asset::USDC"

/-- `DECIMALS_USD` (`src/external/mod.rs` line 23). -/
def DECIMALS_USD : Nat := 6

/-- One remote world for a single `get_price_and_decimals` call: the
outcome of the coin-decimals metadata query and of the four possible
`TokenPairMetadata` reserve lookups (`(token, stable)` direct order and
`(stable, token)` reversed order, for each of the two stablecoins).
`none` models a transport/parse failure of that probe. -/
structure ProbeWorld where
  decimals : Option Nat
  usdcDirect : Option (Int × Int)
  usdcReversed : Option (Int × Int)
  usdtDirect : Option (Int × Int)
  usdtReversed : Option (Int × Int)

/-- `get_balances` (`src/external/mod.rs` lines 175-212): try the direct
pair order; if it fails, retry with the reversed order and swap the
returned balances back. -/
def get_balances (direct reversed : Option (Int × Int)) : Option (Int × Int) :=
  match direct with
  | some b => some b
  | none =>
    match reversed with
    | some p => some (p.2, p.1)
    | none => none

/-- Price formula of `get_price_and_decimals`:
`balance_y / balance_x * 10^(decimals - DECIMALS_USD)` computed in `f64`,
modelled over `ℚ`.  (Division by a zero reserve, which `f64` maps to an
infinity, is modelled by `ℚ`'s `x / 0 = 0` convention; no claim touches
that case.) -/
def pairPrice (bx byy : Int) (decimals : Nat) : ℚ :=
  (byy : ℚ) / (bx : ℚ) * (10 : ℚ) ^ ((decimals : ℤ) - (DECIMALS_USD : ℤ))

/-- Number of HTTP calls `get_balances` performs: one if the direct-order
lookup succeeds, two if it has to retry reversed. -/
def balanceProbeCalls (direct : Option (Int × Int)) : Nat :=
  if direct.isSome then 1 else 2

/-- `get_price_and_decimals` (`src/external/mod.rs` lines 118-144)
together with the number of remote calls it issues.  A reference
stablecoin short-circuits to `(1.0, DECIMALS_USD)` with zero calls.
Otherwise the decimals query is awaited first (its failure drops the two
still-unpolled balance futures, hence one call); then both stablecoin
probes run, USDC preferred, USDT the fallback, `none` if both fail. -/
def get_price_and_decimals (w : ProbeWorld) (token : String) :
    Option (ℚ × Nat) × Nat :=
  if token = USDT ∨ token = USDC then
    (some ((1 : ℚ), DECIMALS_USD), 0)
  else
    match w.decimals with
    | none => (none, 1)
    | some d =>
      let calls := 1 + balanceProbeCalls w.usdcDirect + balanceProbeCalls w.usdtDirect
      match get_balances w.usdcDirect w.usdcReversed with
      | some (bx, byy) => (some (pairPrice bx byy d, d), calls)
      | none =>
        match get_balances w.usdtDirect w.usdtReversed with
        | some (bx, byy) => (some (pairPrice bx byy d, d), calls)
        | none => (none, calls)

/-! ## Attribute typing (`src/database/mod.rs`, `get_type` / `parse_value`)

`serde_json::Value` restricted to the scalar constructors; the claims
about the attribute bag only concern scalar values, and the holder of an
`array`/`object` tag is never produced by `get_type`. -/

/-- Scalar fragment of `serde_json::Value`. -/
inductive JValue where
  | null : JValue
  | boolVal (b : Bool) : JValue
  | intVal (n : Int) : JValue
  | floatVal (q : ℚ) : JValue
  | str (s : String) : JValue
deriving DecidableEq

/-- Rust `str::parse::<bool>`: exactly the strings `true` and `false`. -/
def parseBool (s : String) : Option Bool :=
  if s = "true" then some true
  else if s = "false" then some false
  else none

/-- Value of a list of decimal digit characters. -/
def digitsVal (cs : List Char) : Nat :=
  cs.foldl (fun n c => 10 * n + (c.toNat - 48)) 0

/-- Whether a character list is a nonempty run of decimal digits. -/
def allDigits (cs : List Char) : Bool :=
  !cs.isEmpty && cs.all (·.isDigit)

/-- Rust `str::parse::<i64>`: an optional sign followed by at least one
decimal digit, rejecting anything outside the `i64` range. -/
def parseI64 (s : String) : Option Int :=
  let cs := s.data
  match cs with
  | '-' :: rest =>
    if allDigits rest ∧ digitsVal rest ≤ 2 ^ 63 then some (-(digitsVal rest : Int))
    else none
  | '+' :: rest =>
    if allDigits rest ∧ digitsVal rest ≤ 2 ^ 63 - 1 then some (digitsVal rest : Int)
    else none
  | _ =>
    if allDigits cs ∧ digitsVal cs ≤ 2 ^ 63 - 1 then some (digitsVal cs : Int)
    else none

/-- Rust `str::parse::<f64>`, modelled over `ℚ` on the decimal fragment
`[sign] digits [. digits]` (the fragment the stored attribute payloads
can exercise; exponent, infinity and NaN forms are not needed by any
claim and are conservatively rejected). -/
def parseF64 (s : String) : Option ℚ :=
  let parseMag : List Char → Option ℚ := fun cs =>
    match cs.splitOn '.' with
    | [intPart] =>
      if allDigits intPart then some (digitsVal intPart : ℚ) else none
    | [intPart, fracPart] =>
      if allDigits intPart ∧ allDigits fracPart then
        some ((digitsVal intPart : ℚ) +
          (digitsVal fracPart : ℚ) / (10 : ℚ) ^ fracPart.length)
      else none
    | _ => none
  match s.data with
  | '-' :: rest => (parseMag rest).map (fun q => -q)
  | '+' :: rest => parseMag rest
  | cs => parseMag cs

/-- `get_type` (`src/database/mod.rs` lines 464-476): the type tag stored
by `update_project_attribute`, inferred from the textual payload. -/
def get_type (value : String) : String :=
  if value = "null" then "null"
  else if (parseBool value).isSome then "boolean"
  else if (parseI64 value).isSome then "integer"
  else if (parseF64 value).isSome then "float"
  else "string"

/-- `parse_value` (`src/database/mod.rs` lines 478-493) on the scalar
tags.  The `array`/`object` branch (a `serde_json::from_str` that falls
back to `Null`) and the catch-all `_` branch both map outside the scalar
fragment to `Null`; no scalar claim reaches them. -/
def parse_value (value : String) (value_type : String) : JValue :=
  if value_type = "null" then JValue.null
  else if value_type = "boolean" then JValue.boolVal ((parseBool value).getD false)
  else if value_type = "integer" then
    match parseI64 value with
    | some n => JValue.intVal n
    | none => JValue.intVal 0
  else if value_type = "float" then JValue.floatVal ((parseF64 value).getD 0)
  else if value_type = "string" then JValue.str value
  else JValue.null

/-! ## Project attributes (`src/models/project.rs`) -/

/-- `ProjectAttribute` (`src/models/project.rs` lines 16-20). -/
structure ProjectAttribute where
  key : String
  value : JValue
deriving DecidableEq

/-- `Project` (`src/models/project.rs` lines 4-14); the timestamp fields,
which no claim reads, are omitted. -/
structure Project where
  id : Int
  name : String
  token : String
  category : String
  contract_address : Option String
  attributes : List ProjectAttribute
deriving DecidableEq

/-- `Project::get_attribute_value` (`src/models/project.rs` lines 38-43):
first attribute with the given key. -/
def Project.get_attribute_value (p : Project) (key : String) : Option JValue :=
  (p.attributes.find? (fun attr => attr.key = key)).map (fun attr => attr.value)

/-- `serde_json::Value::as_i64`: the integer when the value is an integer
representable as `i64`, otherwise `None`. -/
def JValue.as_i64 : JValue → Option Int
  | JValue.intVal n => if -(2 ^ 63) ≤ n ∧ n < 2 ^ 63 then some n else none
  | _ => none

/-- Two's-complement truncation of an `i64` value to `i32`, the meaning
of the `as i32` cast in `Project::get_int`. -/
def wrap32 (n : Int) : Int :=
  (n + 2 ^ 31) % 2 ^ 32 - 2 ^ 31

/-- `Project::get_int` (`src/models/project.rs` lines 62-66):
`get_attribute_value(key).and_then(|v| v.as_i64().map(|i| i as i32))`. -/
def Project.get_int (p : Project) (key : String) : Option Int :=
  (p.get_attribute_value key).bind (fun v => (v.as_i64).map wrap32)

/-! ## Market cap (`src/external/mod.rs`, `calculate_market_cap`) -/

/-- `MarketCap` result record. -/
structure MarketCap where
  fully_diluted : ℚ
  normal : ℚ
deriving DecidableEq

/-- `calculate_market_cap` (`src/external/mod.rs` lines 443-474).
`projectRes` is the outcome of `db.get_project_by_address` and
`supplyRes` the outcome of `get_token_supply`.  The source unwraps the
optional project row with `.unwrap()`; the panic this causes when the
lookup succeeds with no row is modelled by the outer `none`. -/
def calculate_market_cap (w : ProbeWorld) (token : String)
    (projectRes : Except String (Option Project))
    (supplyRes : Except String ℚ) : Option (Except String MarketCap) :=
  match (get_price_and_decimals w token).1 with
  | none => some (Except.error "Failed to get price and decimals")
  | some (price, _) =>
    match projectRes with
    | Except.error e => some (Except.error e)
    | Except.ok none => none
    | Except.ok (some project) =>
      match supplyRes with
      | Except.error e => some (Except.error e)
      | Except.ok circulating_supply =>
        let fully_diluted : ℚ :=
          match project.get_int "token_max_supply" with
          | some max_supply => price * (max_supply : ℚ)
          | none => 0
        some (Except.ok ⟨fully_diluted, price * circulating_supply⟩)

/-! ## Scheduler (`src/scheduler/mod.rs`) -/

/-- `TaskType` (`src/scheduler/mod.rs` lines 7-16). -/
inductive TaskType where
  | totalValueLocked
  | tokenTerminalData
  | marketCap
  | numberOfTokenHolders
  | tradingVolume
  | dailyActiveUsers
  | weeklyActiveUsers
  | dailyFees
deriving DecidableEq, Fintype

/-- The fixed attribute keys each job's `update_*` handler upserts on a
successful tick (`src/scheduler/mod.rs` lines 125-305). -/
def jobKeys : TaskType → List String
  | TaskType.totalValueLocked => ["total_value_locked"]
  | TaskType.tokenTerminalData =>
    ["ath", "ath_last", "atl", "atl_last", "revenue_30d", "revenue_annualized",
     "expenses_30d", "earnings_30d", "fees_30d", "fees_annualized",
     "token_incentives_30d", "monthly_active_users", "afpu", "arpu",
     "token_trading_volume_30d"]
  | TaskType.marketCap => ["market_cap_fully_diluted", "market_cap_circulating"]
  | TaskType.numberOfTokenHolders => ["num_token_holders"]
  | TaskType.tradingVolume => ["trading_volume"]
  | TaskType.dailyActiveUsers => ["daily_active_users"]
  | TaskType.weeklyActiveUsers => ["weekly_active_users"]
  | TaskType.dailyFees => ["daily_fees"]

/-- The attribute bag of the tracked project: key/value pairs persisted
by `update_project_attribute` (values serialized to text). -/
abbrev AttrBag := List (String × String)

/-- `update_project_attribute` upsert semantics
(`src/database/mod.rs` lines 422-444): insert or overwrite by key. -/
def upsertAttr (bag : AttrBag) (key value : String) : AttrBag :=
  match bag with
  | [] => [(key, value)]
  | (k, v) :: rest =>
    if k = key then (k, value) :: rest else (k, v) :: upsertAttr rest key value

/-- Lookup in the attribute bag. -/
def lookupAttr (bag : AttrBag) (key : String) : Option String :=
  (bag.find? (fun kv => kv.1 = key)).map (fun kv => kv.2)

/-- One tick of one scheduler job, as observed by `run_task`
(`src/scheduler/mod.rs` lines 37-68): the job it belongs to, the outcome
of the aggregation routine (`valueOf` gives the serialized value computed
for each of the job's keys when the aggregation succeeded), and which
upserts of the persist step fail (`wfail`). -/
structure Tick where
  job : TaskType
  outcome : Except String (String → String)
  wfail : String → Bool

/-- The effect of one tick on the attribute bag: on `Err`, the handler
only logs (`eprintln!`) and the bag is untouched; on `Ok`, each of the
job's keys is upserted, a failing upsert being logged and skipped. -/
def run_tick (bag : AttrBag) (t : Tick) : AttrBag :=
  match t.outcome with
  | Except.error _ => bag
  | Except.ok valueOf =>
    (jobKeys t.job).foldl
      (fun b k => if t.wfail k then b else upsertAttr b k (valueOf k)) bag

/-- `run_task` across all jobs: the infinite per-job loops interleave
into a single trace of completed ticks; every tick in the trace is
processed (the loops never exit), in trace order. -/
def run_ticks (trace : List Tick) (bag : AttrBag) : AttrBag :=
  trace.foldl run_tick bag

/-! ## Holder-count estimator (`src/external/mod.rs`,
`get_number_of_token_holders`, lines 477-529)

The remote `current_coin_balances` endpoint is simulated exactly as the
specification stipulates: with `H` holders, the probe at offset `o`
returns `min(100, max(0, H - o + 1))` records. -/

/-- The simulated paginated balance source with exactly `H` holders
(`Nat` subtraction realises the `max 0`). -/
def probeCount (H o : Nat) : Nat := min 100 (H + 1 - o)

/-- Outcome of inspecting one round's ten probe results in spawn order,
as the `for (i, task_result)` loop of `get_number_of_token_holders`
does: the first partial page returns `offset + count`; otherwise the
first zero page narrows the interval; otherwise every probe was a full
page of 100. -/
inductive ProbeScan where
  | found (v : Nat)
  | zero (i : Nat)
  | all100
deriving DecidableEq

/-- Scan the round's results from index `i` with `rem` indices left
(`rem + i = 10` at the call site). -/
def scanProbes (H left seg : Nat) : Nat → Nat → ProbeScan
  | 0, _ => ProbeScan.all100
  | rem + 1, i =>
    let c := probeCount H (left + i * seg)
    if 0 < c ∧ c < 100 then ProbeScan.found (left + i * seg + c)
    else if c = 0 then ProbeScan.zero i
    else scanProbes H left seg rem (i + 1)

/-- The `while left <= right` loop of `get_number_of_token_holders`,
instrumented with the total number of probe calls issued (`probes`; the
source spawns all ten tasks of a round before inspecting any result)
and the segment width of the most recent round (`lastSeg`).  Returns
`(estimate, segment width at termination, probe calls)`; `none` when the
fuel runs out before the loop terminates. -/
def holdersLoop (H : Nat) : Nat → Nat → Nat → Nat → Nat → Option (Nat × Nat × Nat)
  | 0, _, _, _, _ => none
  | fuel + 1, left, right, probes, lastSeg =>
    if left ≤ right then
      let segment := (right - left + 1) / 10
      if segment = 0 then some (left, lastSeg, probes)
      else
        match scanProbes H left segment 10 0 with
        | ProbeScan.found v => some (v, segment, probes + 10)
        | ProbeScan.zero i =>
          let right2 := left + i * segment - 1
          let left2 := if 0 < i then left + (i - 1) * segment else left
          holdersLoop H fuel left2 right2 (probes + 10) segment
        | ProbeScan.all100 =>
          holdersLoop H fuel (right - segment + 1) right (probes + 10) segment
    else some (left, lastSeg, probes)

/-- `get_number_of_token_holders` against the simulated source with `H`
holders: search interval initialised to `[1, 10^9]`.  Twelve loop
iterations are more than the interval can survive (its width shrinks
tenfold per round), as proved below. -/
def get_number_of_token_holders (H : Nat) : Option (Nat × Nat × Nat) :=
  holdersLoop H 12 1 1000000000 0 0

/-! ## Windowed aggregation: trading volume (`src/external/mod.rs`,
`calculate_trading_volume`, lines 567-732) -/

/-- One `coin_activities` entry: timestamp, raw amount, coin type. -/
structure Act where
  ts : Int
  amount : Nat
  coin : String
deriving DecidableEq

/-- One `account_transactions` entry: its list of coin activities. -/
abbrev Tx := List Act

/-- The shared `coin_volumes` accumulator (`HashMap<String, u64>`),
modelled as an association list with unique keys; `addVol` is
`*volumes.entry(coin).or_insert(0) += amount`. -/
abbrev CoinMap := List (String × Nat)

/-- Add `n` to the entry of coin `c` (insert at 0 if absent). -/
def addVol : CoinMap → String → Nat → CoinMap
  | [], c, n => [(c, n)]
  | (c0, n0) :: rest, c, n =>
    if c0 = c then (c0, n0 + n) :: rest else (c0, n0) :: addVol rest c n

/-- Lookup with the `HashMap` default of 0. -/
def lookupVol (m : CoinMap) (c : String) : Nat :=
  match m.find? (fun kv => kv.1 = c) with
  | some kv => kv.2
  | none => 0

/-- Inner loop of a trading-volume task over one transaction's
activities: accumulate each activity in the shared map until one is
older than the cutoff, which sets the local flag and breaks. -/
def scanActs (cutoff : Int) (m : CoinMap) : List Act → CoinMap × Bool
  | [] => (m, false)
  | a :: rest =>
    if a.ts < cutoff then (m, true)
    else scanActs cutoff (addVol m a.coin a.amount) rest

/-- Outer loop of a trading-volume task over the page's transactions:
stop at the first transaction whose scan crossed the boundary. -/
def scanTxs (cutoff : Int) (m : CoinMap) : List Tx → CoinMap × Bool
  | [] => (m, false)
  | t :: rest =>
    match scanActs cutoff m t with
    | (m2, true) => (m2, true)
    | (m2, false) => scanTxs cutoff m2 rest

/-- One batch of `n` concurrent trading-volume tasks at offsets
`off, off+100, …`: every task fetches and fully scans its page (the
shared map is mutated by all of them before `join_all` returns), and the
batch also yields the per-task results (`Ok(found flag)` or the fetch
error) in spawn order for the orchestrator to inspect. -/
def tvBatch (fetch : Nat → Except String (List Tx)) (cutoff : Int) :
    Nat → Nat → CoinMap → CoinMap × List (Except String Bool)
  | 0, _, m => (m, [])
  | n + 1, off, m =>
    match fetch off with
    | Except.error e =>
      let r := tvBatch fetch cutoff n (off + 100) m
      (r.1, Except.error e :: r.2)
    | Except.ok page =>
      let s := scanTxs cutoff m page
      let r := tvBatch fetch cutoff n (off + 100) s.1
      (r.1, Except.ok s.2 :: r.2)

/-- The orchestrator's scan of a batch's results (`for result in
results` with `break`): the first boundary flag stops the scan with
"found"; an error encountered before any boundary flag aborts the whole
aggregation with that error. -/
def resolveTv : List (Except String Bool) → Except String Bool
  | [] => Except.ok false
  | Except.error e :: _ => Except.error e
  | Except.ok true :: _ => Except.ok true
  | Except.ok false :: rest => resolveTv rest

/-- The `while !found_old_activity` pagination loop of
`calculate_trading_volume`: 250 tasks per batch, offset advancing by
25000 per batch, no record ceiling.  Returns the final `coin_volumes`
map, or the propagated page error; `none` when the fuel runs out. -/
def tvLoop (fetch : Nat → Except String (List Tx)) (cutoff : Int) :
    Nat → Nat → CoinMap → Option (Except String CoinMap)
  | 0, _, _ => none
  | fuel + 1, off, m =>
    let r := tvBatch fetch cutoff 250 off m
    match resolveTv r.2 with
    | Except.error e => some (Except.error e)
    | Except.ok true => some (Except.ok r.1)
    | Except.ok false => tvLoop fetch cutoff fuel (off + 25000) r.1

/-- Final conversion of `calculate_trading_volume`: one price-oracle
call per distinct coin; a coin whose price is unresolvable is logged and
contributes 0. -/
def convertVolumes (price : String → Option (ℚ × Nat)) : CoinMap → ℚ
  | [] => 0
  | (c, v) :: rest =>
    (match price c with
     | some pd => pd.1 * (v : ℚ) / (10 : ℚ) ^ pd.2
     | none => 0) + convertVolumes price rest

/-- `calculate_trading_volume` (`src/external/mod.rs` lines 567-732):
paginate until the seven-day boundary, then convert the per-coin volumes
to USD. -/
def calculate_trading_volume (fetch : Nat → Except String (List Tx))
    (cutoff : Int) (price : String → Option (ℚ × Nat)) (fuel : Nat) :
    Option (Except String ℚ) :=
  (tvLoop fetch cutoff fuel 0 []).map (fun r => r.map (convertVolumes price))

/-! ## Windowed aggregation: active users (`src/external/mod.rs`,
`get_daily_active_users` lines 734-836 and `get_weekly_active_users`
lines 838-954)

Records carry the sender and the (already parsed) transaction date. -/

/-- One `user_transaction` record: sender address and transaction date
(`NaiveDate`, modelled as `Int`). -/
structure URec where
  sender : String
  date : Int
deriving DecidableEq

/-- Page scan of a daily-active-users task: collect the senders dated
today, in page order, stopping with the flag at the first record of an
older date. -/
def dauScan (today : Int) : List URec → List String × Bool
  | [] => ([], false)
  | r :: rest =>
    if r.date = today then
      let s := dauScan today rest
      (r.sender :: s.1, s.2)
    else ([], true)

/-- Page scan of a weekly-active-users task: same shape with the
seven-day window test `date >= seven_days_ago`. -/
def wauScan (cutoff : Int) : List URec → List String × Bool
  | [] => ([], false)
  | r :: rest =>
    if r.date ≥ cutoff then
      let s := wauScan cutoff rest
      (r.sender :: s.1, s.2)
    else ([], true)

/-- One batch of `n` daily-active-users tasks merged in spawn order: a
failing fetch is only logged (`eprintln!`) and skipped; a successful
task's local set is unioned into the global set and its boundary flag
or-ed into `found_old_transaction`. -/
def dauBatch (fetch : Nat → Except String (List URec)) (today : Int) :
    Nat → Nat → Finset String × Bool → Finset String × Bool
  | 0, _, acc => acc
  | n + 1, off, acc =>
    match fetch off with
    | Except.error _ => dauBatch fetch today n (off + 100) acc
    | Except.ok page =>
      let s := dauScan today page
      dauBatch fetch today n (off + 100) (acc.1 ∪ s.1.toFinset, acc.2 || s.2)

/-- The batch step of `get_weekly_active_users`, identical in shape to
the daily one but over the weekly window test. -/
def wauBatch (fetch : Nat → Except String (List URec)) (cutoff : Int) :
    Nat → Nat → Finset String × Bool → Finset String × Bool
  | 0, _, acc => acc
  | n + 1, off, acc =>
    match fetch off with
    | Except.error _ => wauBatch fetch cutoff n (off + 100) acc
    | Except.ok page =>
      let s := wauScan cutoff page
      wauBatch fetch cutoff n (off + 100) (acc.1 ∪ s.1.toFinset, acc.2 || s.2)

/-- The `while !found_old_transaction` loop of `get_daily_active_users`:
50 tasks per batch, offset advancing by 5000 per batch, no ceiling, and
every error only logged, so the loop can only exit by observing the
boundary; the `Result` it returns is therefore always `Ok(len)`,
modelled as the set's cardinality.  `none` means the loop is still
running after `fuel` batches. -/
def dauLoop (fetch : Nat → Except String (List URec)) (today : Int) :
    Nat → Nat → Finset String → Option Nat
  | 0, _, _ => none
  | fuel + 1, off, users =>
    let r := dauBatch fetch today 50 off (users, false)
    if r.2 then some r.1.card
    else dauLoop fetch today fuel (off + 5000) r.1

/-- `get_daily_active_users` (`src/external/mod.rs` lines 734-836). -/
def get_daily_active_users (fetch : Nat → Except String (List URec))
    (today : Int) (fuel : Nat) : Option Nat :=
  dauLoop fetch today fuel 0 ∅

/-- The pagination loop of `get_weekly_active_users`: 250 tasks per
batch, offset advancing by 25000 per batch, and — alone among the three
windowed aggregations — the `offset >= 500_000` safety break, checked
after the batch merge; either exit returns only `Ok(len)`, the
truncated/exact distinction being merely printed. -/
def wauLoop (fetch : Nat → Except String (List URec)) (cutoff : Int) :
    Nat → Nat → Finset String → Option Nat
  | 0, _, _ => none
  | fuel + 1, off, users =>
    let r := wauBatch fetch cutoff 250 off (users, false)
    if r.2 then some r.1.card
    else if 500000 ≤ off + 25000 then some r.1.card
    else wauLoop fetch cutoff fuel (off + 25000) r.1

/-- `get_weekly_active_users` (`src/external/mod.rs` lines 838-954). -/
def get_weekly_active_users (fetch : Nat → Except String (List URec))
    (cutoff : Int) (fuel : Nat) : Option Nat :=
  wauLoop fetch cutoff fuel 0 ∅

/-! ## Synthetic record streams

A deterministic remote source backed by one globally ordered record
stream: the page at offset `o` is the 100-record slice starting at
index `o`, matching the stable `offset`/`limit` pagination semantics the
source relies on. -/

/-- The 100-element page of a stream at offset `o`. -/
def pageOf {α : Type} (s : List α) (o : Nat) : List α :=
  (s.drop o).take 100

/-- Error-free fetch oracle backed by a record stream. -/
def streamFetch {α : Type} (s : List α) : Nat → Except String (List α) :=
  fun o => Except.ok (pageOf s o)

/-- Total raw amount of coin `c` among the activities `l`: the reduction
the trading-volume aggregator is meant to compute per coin. -/
def volOf (l : List Act) (c : String) : Nat :=
  ((l.filter (fun a => a.coin = c)).map (fun a => a.amount)).sum

/-- `addVol`-fold of a list of activities into a map, the sequential
image of the tasks' shared-map writes. -/
def addAllActs (m : CoinMap) (l : List Act) : CoinMap :=
  l.foldl (fun acc a => addVol acc a.coin a.amount) m

/-- Per-coin lookup through the option/except layers of a trading-volume
run, used to state results about the merged map. -/
def optLookup (r : Option (Except String CoinMap)) (c : String) :
    Option (Except String Nat) :=
  r.map (fun x => x.map (fun m => lookupVol m c))

/-- A concrete trading-volume remote: page 0 holds one in-window swap
of 7 raw units of coin A followed by a transaction older than the
cutoff; the fetch at offset 100 fails; every other page is empty. -/
def tvErrFetch : Nat → Except String (List Tx) := fun o =>
  if o = 0 then Except.ok [[⟨5, 7, "A"⟩], [⟨-1, 3, "A"⟩]]
  else if o = 100 then Except.error "boom" else Except.ok []

/-- A concrete daily-active-users remote: page 0 holds one sender active
today followed by an older record; the fetch at offset 100 fails with
the given error; every other page is empty. -/
def dauErrFetch (e : String) : Nat → Except String (List URec) := fun o =>
  if o = 0 then Except.ok [⟨"a", 0⟩, ⟨"b", 1⟩]
  else if o = 100 then Except.error e else Except.ok []

/-! ## Lemmas: attribute bag and scheduler -/

theorem lookupAttr_upsert (b : AttrBag) (key v k : String) :
    lookupAttr (upsertAttr b key v) k = if key = k then some v else lookupAttr b k := by
  induction b with
  | nil =>
    by_cases h : key = k <;> simp [upsertAttr, lookupAttr, List.find?, h]
  | cons kv rest ih =>
    obtain ⟨k0, v0⟩ := kv
    by_cases h0 : k0 = key
    · subst h0
      by_cases h : k0 = k <;> simp [upsertAttr, lookupAttr, List.find?, h]
    · by_cases h : k0 = k
      · subst h
        have hkey : key ≠ k0 := fun hh => h0 hh.symm
        simp [upsertAttr, lookupAttr, List.find?, h0, hkey]
      · by_cases hkk : key = k
        · subst hkk
          simp only [upsertAttr, if_neg h0]
          simpa [lookupAttr, List.find?, h] using ih
        · simp only [upsertAttr, if_neg h0]
          simpa [lookupAttr, List.find?, h, hkk] using ih

theorem foldWrite_lookup_congr (k : String) (wf : String → Bool) (vf : String → String) :
    ∀ (keys : List String) (b1 b2 : AttrBag),
      lookupAttr b1 k = lookupAttr b2 k →
      lookupAttr (keys.foldl (fun b kk => if wf kk then b else upsertAttr b kk (vf kk)) b1) k =
      lookupAttr (keys.foldl (fun b kk => if wf kk then b else upsertAttr b kk (vf kk)) b2) k := by
  intro keys
  induction keys with
  | nil => intro b1 b2 h; simpa using h
  | cons kk rest ih =>
    intro b1 b2 h
    simp only [List.foldl_cons]
    apply ih
    by_cases hw : wf kk
    · simpa [hw] using h
    · simp [hw, lookupAttr_upsert, h]

theorem foldWrite_lookup_other (k : String) (wf : String → Bool) (vf : String → String) :
    ∀ (keys : List String) (b : AttrBag), k ∉ keys →
      lookupAttr (keys.foldl (fun b kk => if wf kk then b else upsertAttr b kk (vf kk)) b) k =
      lookupAttr b k := by
  intro keys
  induction keys with
  | nil => intro b _; rfl
  | cons kk rest ih =>
    intro b hk
    have hkk : kk ≠ k := fun h => hk (by simp [h])
    have hrest : k ∉ rest := fun h => hk (by simp [h])
    simp only [List.foldl_cons]
    rw [ih _ hrest]
    by_cases hw : wf kk
    · simp [hw]
    · simp [hw, lookupAttr_upsert, hkk]

theorem run_tick_lookup_congr (t : Tick) (k : String) (b1 b2 : AttrBag)
    (h : lookupAttr b1 k = lookupAttr b2 k) :
    lookupAttr (run_tick b1 t) k = lookupAttr (run_tick b2 t) k := by
  unfold run_tick
  cases t.outcome with
  | error e => exact h
  | ok valueOf => exact foldWrite_lookup_congr k t.wfail valueOf (jobKeys t.job) b1 b2 h

theorem run_tick_lookup_other (t : Tick) (k : String) (b : AttrBag)
    (h : k ∉ jobKeys t.job) :
    lookupAttr (run_tick b t) k = lookupAttr b k := by
  unfold run_tick
  cases t.outcome with
  | error e => rfl
  | ok valueOf => exact foldWrite_lookup_other k t.wfail valueOf (jobKeys t.job) b h

theorem run_ticks_lookup_congr (k : String) :
    ∀ (trace : List Tick) (b1 b2 : AttrBag),
      lookupAttr b1 k = lookupAttr b2 k →
      lookupAttr (run_ticks trace b1) k = lookupAttr (run_ticks trace b2) k := by
  intro trace
  induction trace with
  | nil => intro b1 b2 h; exact h
  | cons t rest ih =>
    intro b1 b2 h
    exact ih _ _ (run_tick_lookup_congr t k b1 b2 h)

theorem jobKeys_disjoint :
    ∀ j j2 : TaskType, j ≠ j2 → ∀ k ∈ jobKeys j, k ∉ jobKeys j2 := by decide

/-- C6: for every scheduled job and every tick whose aggregation or
persist step fails, the Scheduler logs the failure and proceeds: a
failed tick leaves the attribute bag untouched and never stops that
job's subsequent ticks (the trace with the failed tick ends in the same
bag as the trace without it), and a job's persisted attribute is
determined by that job's ticks alone, so no other job's ticks — failed
or not — block or disturb it. -/
theorem C6_failed_tick_logs_and_continues :
    (∀ (xs ys : List Tick) (j : TaskType) (e : String) (wf : String → Bool) (bag : AttrBag),
      run_ticks (xs ++ ⟨j, Except.error e, wf⟩ :: ys) bag = run_ticks (xs ++ ys) bag) ∧
    (∀ (trace : List Tick) (j : TaskType) (k : String) (bag : AttrBag), k ∈ jobKeys j →
      lookupAttr (run_ticks trace bag) k =
        lookupAttr (run_ticks (trace.filter (fun t => t.job == j)) bag) k) := by
  constructor
  · intro xs ys j e wf bag
    simp [run_ticks, run_tick]
  · intro trace
    induction trace with
    | nil => intro j k bag _; rfl
    | cons t rest ih =>
      intro j k bag hk
      by_cases hj : t.job = j
      · have : (t :: rest).filter (fun t => t.job == j) =
            t :: rest.filter (fun t => t.job == j) := by
          simp [List.filter_cons, hj]
        rw [this]
        exact ih j k (run_tick bag t) hk
      · have : (t :: rest).filter (fun t => t.job == j) =
            rest.filter (fun t => t.job == j) := by
          simp [List.filter_cons, hj]
        rw [this]
        have hother : k ∉ jobKeys t.job :=
          jobKeys_disjoint j t.job (fun h => hj h.symm) k hk
        have step : lookupAttr (run_tick bag t) k = lookupAttr bag k :=
          run_tick_lookup_other t k bag hother
        calc lookupAttr (run_ticks (t :: rest) bag) k
            = lookupAttr (run_ticks rest (run_tick bag t)) k := rfl
          _ = lookupAttr (run_ticks (rest.filter (fun t => t.job == j)) (run_tick bag t)) k :=
              ih j k (run_tick bag t) hk
          _ = lookupAttr (run_ticks (rest.filter (fun t => t.job == j)) bag) k :=
              run_ticks_lookup_congr k _ _ _ step

/-- Witness for C6 at a concrete two-job trace with a failed tick. -/
theorem C6_witness :
    run_ticks
        [⟨TaskType.tradingVolume, Except.ok (fun _ => "7"), fun _ => false⟩,
         ⟨TaskType.dailyActiveUsers, Except.error "boom", fun _ => false⟩,
         ⟨TaskType.dailyActiveUsers, Except.ok (fun _ => "3"), fun _ => false⟩] [] =
      run_ticks
        [⟨TaskType.tradingVolume, Except.ok (fun _ => "7"), fun _ => false⟩,
         ⟨TaskType.dailyActiveUsers, Except.ok (fun _ => "3"), fun _ => false⟩] [] ∧
    lookupAttr
        (run_ticks
          [⟨TaskType.tradingVolume, Except.ok (fun _ => "7"), fun _ => false⟩,
           ⟨TaskType.dailyActiveUsers, Except.error "boom", fun _ => false⟩] [])
        "trading_volume" =
      lookupAttr
        (run_ticks
          ([⟨TaskType.tradingVolume, Except.ok (fun _ => "7"), fun _ => false⟩,
            ⟨TaskType.dailyActiveUsers, Except.error "boom", fun _ => false⟩].filter
            (fun t => t.job == TaskType.tradingVolume)) [])
        "trading_volume" :=
  ⟨C6_failed_tick_logs_and_continues.1
      [⟨TaskType.tradingVolume, Except.ok (fun _ => "7"), fun _ => false⟩]
      [⟨TaskType.dailyActiveUsers, Except.ok (fun _ => "3"), fun _ => false⟩]
      TaskType.dailyActiveUsers "boom" (fun _ => false) [],
   C6_failed_tick_logs_and_continues.2 _ TaskType.tradingVolume "trading_volume" []
      (by decide)⟩

/-! ## C7: attribute type tags -/

/-- C7 counterexample: the textual payload `30` is tagged by `get_type`
as `integer` regardless of the intended type of the stored value, so
storing the string `30` through `update_project_attribute` and reading
it back yields the integer 30, not the string — the claimed unambiguous
round-trip fails. -/
theorem C7_counterexample :
    get_type "30" = "integer" ∧
    parse_value "30" (get_type "30") = JValue.intVal 30 ∧
    JValue.intVal 30 ≠ JValue.str "30" := by
  refine ⟨by decide, by decide, by decide⟩

/-- C7 (amended): `update_project_attribute` stores a type tag that
`get_type` infers from the string payload itself, so reading back
recovers the payload under its inferred type, not the caller's intended
type: the text `30` is stored tagged `integer` and reads back as the
integer 30, and only a payload that parses as no other type is tagged
and read back as a string. -/
theorem C7_type_tag_inferred :
    (get_type "30" = "integer" ∧ parse_value "30" (get_type "30") = JValue.intVal 30) ∧
    (∀ s : String, get_type s = "string" → parse_value s (get_type s) = JValue.str s) := by
  refine ⟨⟨by decide, by decide⟩, ?_⟩
  intro s h
  rw [h]
  simp [parse_value]

/-- Witness for C7 at the payload `hello`, which is tagged `string` and
round-trips verbatim. -/
theorem C7_witness :
    parse_value "hello" (get_type "hello") = JValue.str "hello" :=
  C7_type_tag_inferred.2 "hello" (by decide)

/-! ## C5 and C9: price oracle -/

/-- C5: for a non-stablecoin token (with resolvable decimals, which the
source awaits before inspecting either probe), `get_price_and_decimals`
uses exactly the USDC pool probe's balances whenever that probe
succeeded, falls back to exactly the USDT probe's balances otherwise,
and returns `none` when both probes fail; the returned price is the
pair price of a single probe, never an average. -/
theorem C5_stablecoin_probe_preference (w : ProbeWorld) (token : String)
    (hne : ¬(token = USDT ∨ token = USDC)) :
    (∀ d bx byy, w.decimals = some d →
      get_balances w.usdcDirect w.usdcReversed = some (bx, byy) →
      (get_price_and_decimals w token).1 = some (pairPrice bx byy d, d)) ∧
    (∀ d bx byy, w.decimals = some d →
      get_balances w.usdcDirect w.usdcReversed = none →
      get_balances w.usdtDirect w.usdtReversed = some (bx, byy) →
      (get_price_and_decimals w token).1 = some (pairPrice bx byy d, d)) ∧
    (get_balances w.usdcDirect w.usdcReversed = none →
      get_balances w.usdtDirect w.usdtReversed = none →
      (get_price_and_decimals w token).1 = none) := by
  refine ⟨?_, ?_, ?_⟩
  · intro d bx byy hd hu
    simp [get_price_and_decimals, hne, hd, hu]
  · intro d bx byy hd hu ht
    simp [get_price_and_decimals, hne, hd, hu, ht]
  · intro hu ht
    cases hd : w.decimals with
    | none => simp [get_price_and_decimals, hne, hd]
    | some d => simp [get_price_and_decimals, hne, hd, hu, ht]

/-- Witness for C5: all three branches at concrete probe worlds. -/
theorem C5_witness :
    (get_price_and_decimals ⟨some 8, some (3, 4), none, some (7, 9), none⟩ "tok").1 =
      some (pairPrice 3 4 8, 8) ∧
    (get_price_and_decimals ⟨some 8, none, none, some (7, 9), none⟩ "tok").1 =
      some (pairPrice 7 9 8, 8) ∧
    (get_price_and_decimals ⟨some 8, none, none, none, none⟩ "tok").1 = none :=
  ⟨(C5_stablecoin_probe_preference ⟨some 8, some (3, 4), none, some (7, 9), none⟩ "tok"
      (by decide)).1 8 3 4 rfl rfl,
   (C5_stablecoin_probe_preference ⟨some 8, none, none, some (7, 9), none⟩ "tok"
      (by decide)).2.1 8 7 9 rfl rfl rfl,
   (C5_stablecoin_probe_preference ⟨some 8, none, none, none, none⟩ "tok"
      (by decide)).2.2 rfl rfl⟩

/-- C9: for a reference stablecoin, `get_price_and_decimals`
short-circuits to `(1.0, DECIMALS_USD)` and issues zero remote calls. -/
theorem C9_stablecoin_short_circuit (w : ProbeWorld) (token : String)
    (h : token = USDT ∨ token = USDC) :
    get_price_and_decimals w token = (some ((1 : ℚ), DECIMALS_USD), 0) := by
  simp [get_price_and_decimals, h]

/-- Witness for C9 at USDT and USDC with arbitrary probe outcomes. -/
theorem C9_witness :
    get_price_and_decimals ⟨some 3, some (5, 6), none, none, none⟩ USDT =
      (some ((1 : ℚ), DECIMALS_USD), 0) ∧
    get_price_and_decimals ⟨none, none, none, none, none⟩ USDC =
      (some ((1 : ℚ), DECIMALS_USD), 0) :=
  ⟨C9_stablecoin_short_circuit _ USDT (Or.inl rfl),
   C9_stablecoin_short_circuit _ USDC (Or.inr rfl)⟩

/-! ## C8 and C10: market cap -/

theorem wrap32_eq_self (n : Int) (h1 : -(2 ^ 31) ≤ n) (h2 : n < 2 ^ 31) :
    wrap32 n = n := by
  unfold wrap32
  omega

/-- C8 counterexample: with price 1 and a persisted `token_max_supply`
of `2^31` (a max supply of about 2.15 billion tokens), `Project::get_int`
truncates the attribute through an `as i32` cast, and
`calculate_market_cap` returns `fully_diluted = -2^31` instead of the
claimed `price * max_supply = 2^31`. -/
theorem pairPrice_one_one : pairPrice 1 1 6 = 1 := by
  unfold pairPrice DECIMALS_USD
  norm_num

theorem C8_counterexample :
    calculate_market_cap ⟨some 6, some (1, 1), none, none, none⟩ "CAKE"
        (Except.ok (some ⟨1, "pancake", "CAKE", "DEX", none,
          [⟨"token_max_supply", JValue.intVal 2147483648⟩]⟩))
        (Except.ok 5) =
      some (Except.ok ⟨-2147483648, 5⟩) ∧
    (-2147483648 : ℚ) ≠ pairPrice 1 1 6 * (2147483648 : ℚ) := by
  have hne : ¬(("CAKE" : String) = USDT ∨ ("CAKE" : String) = USDC) := by decide
  have hgp : (get_price_and_decimals ⟨some 6, some (1, 1), none, none, none⟩ "CAKE").1 =
      some (pairPrice 1 1 6, 6) := by
    simp [get_price_and_decimals, hne, get_balances]
  have hint : Project.get_int
      ⟨1, "pancake", "CAKE", "DEX", none,
        [⟨"token_max_supply", JValue.intVal 2147483648⟩]⟩ "token_max_supply" =
      some (-2147483648) := by decide
  constructor
  · simp only [calculate_market_cap, hgp, hint]
    rw [pairPrice_one_one]
    norm_num
  · intro h
    rw [pairPrice_one_one, one_mul] at h
    norm_num at h

/-- C8 (amended): `calculate_market_cap` returns an error whenever price
resolution fails; with a resolved price it returns
`circulating = price * circulating_supply` always, `fully_diluted = 0`
when the persisted `token_max_supply` attribute is absent (absence
degrades to 0, not an error), `fully_diluted = price * max_supply` when
the attribute fits in `i32`, and in general
`fully_diluted = price * (max_supply truncated to i32)` because
`Project::get_int` casts the stored `i64` with `as i32`. -/
theorem C8_market_cap_formula :
    (∀ (w : ProbeWorld) (token : String) (projectRes : Except String (Option Project))
        (supplyRes : Except String ℚ),
      (get_price_and_decimals w token).1 = none →
      calculate_market_cap w token projectRes supplyRes =
        some (Except.error "Failed to get price and decimals")) ∧
    (∀ (w : ProbeWorld) (token : String) (p : Project) (supply price : ℚ) (d : Nat),
      (get_price_and_decimals w token).1 = some (price, d) →
      p.get_int "token_max_supply" = none →
      calculate_market_cap w token (Except.ok (some p)) (Except.ok supply) =
        some (Except.ok ⟨0, price * supply⟩)) ∧
    (∀ (w : ProbeWorld) (token : String) (p : Project) (supply price : ℚ) (d : Nat)
        (ms : Int),
      (get_price_and_decimals w token).1 = some (price, d) →
      p.get_attribute_value "token_max_supply" = some (JValue.intVal ms) →
      -(2 ^ 31) ≤ ms → ms < 2 ^ 31 →
      calculate_market_cap w token (Except.ok (some p)) (Except.ok supply) =
        some (Except.ok ⟨price * (ms : ℚ), price * supply⟩)) ∧
    (∀ (w : ProbeWorld) (token : String) (p : Project) (supply price : ℚ) (d : Nat)
        (ms : Int),
      (get_price_and_decimals w token).1 = some (price, d) →
      p.get_attribute_value "token_max_supply" = some (JValue.intVal ms) →
      -(2 ^ 63) ≤ ms → ms < 2 ^ 63 →
      calculate_market_cap w token (Except.ok (some p)) (Except.ok supply) =
        some (Except.ok ⟨price * (wrap32 ms : ℚ), price * supply⟩)) := by
  refine ⟨?_, ?_, ?_, ?_⟩
  · intro w token projectRes supplyRes hp
    simp [calculate_market_cap, hp]
  · intro w token p supply price d hp hm
    simp [calculate_market_cap, hp, hm]
  · intro w token p supply price d ms hp hm h1 h2
    have hint : p.get_int "token_max_supply" = some ms := by
      simp [Project.get_int, hm, JValue.as_i64, wrap32_eq_self ms h1 h2]
      omega
    simp [calculate_market_cap, hp, hint]
  · intro w token p supply price d ms hp hm h1 h2
    have hint : p.get_int "token_max_supply" = some (wrap32 ms) := by
      simp [Project.get_int, hm, JValue.as_i64]
      omega
    simp [calculate_market_cap, hp, hint]

/-- Witness for C8: all four branches at concrete inputs (price 1 via a
USDC pool with equal reserves; max supply absent, in `i32` range, and at
the wrapping value `2^31`). -/
theorem C8_witness :
    calculate_market_cap ⟨none, some (1, 1), none, none, none⟩ "CAKE"
        (Except.ok (some ⟨1, "pancake", "CAKE", "DEX", none, []⟩)) (Except.ok 5) =
      some (Except.error "Failed to get price and decimals") ∧
    calculate_market_cap ⟨some 6, some (1, 1), none, none, none⟩ "CAKE"
        (Except.ok (some ⟨1, "pancake", "CAKE", "DEX", none, []⟩)) (Except.ok 5) =
      some (Except.ok ⟨0, pairPrice 1 1 6 * 5⟩) ∧
    calculate_market_cap ⟨some 6, some (1, 1), none, none, none⟩ "CAKE"
        (Except.ok (some ⟨1, "pancake", "CAKE", "DEX", none,
          [⟨"token_max_supply", JValue.intVal 750000000⟩]⟩)) (Except.ok 5) =
      some (Except.ok ⟨pairPrice 1 1 6 * (750000000 : ℚ), pairPrice 1 1 6 * 5⟩) ∧
    calculate_market_cap ⟨some 6, some (1, 1), none, none, none⟩ "CAKE"
        (Except.ok (some ⟨1, "pancake", "CAKE", "DEX", none,
          [⟨"token_max_supply", JValue.intVal 2147483648⟩]⟩)) (Except.ok 5) =
      some (Except.ok ⟨pairPrice 1 1 6 * ((wrap32 2147483648 : Int) : ℚ),
        pairPrice 1 1 6 * 5⟩) :=
  ⟨C8_market_cap_formula.1 _ "CAKE" _ _ rfl,
   C8_market_cap_formula.2.1 _ "CAKE" _ 5 (pairPrice 1 1 6) 6 rfl rfl,
   C8_market_cap_formula.2.2.1 _ "CAKE" _ 5 (pairPrice 1 1 6) 6 750000000 rfl rfl
     (by norm_num) (by norm_num),
   C8_market_cap_formula.2.2.2 _ "CAKE" _ 5 (pairPrice 1 1 6) 6 2147483648 rfl rfl
     (by norm_num) (by norm_num)⟩

/-- C10: `calculate_market_cap` unwraps the optional project row with
`.unwrap()`: when the lookup by contract address succeeds but finds no
row, the call panics (modelled by `none`) instead of returning an error
value, whereas a database error does flow out through the error branch —
so the error branch is not the only failure mode at that call site. -/
theorem C10_missing_project_row_panics :
    (∀ (w : ProbeWorld) (token : String) (supplyRes : Except String ℚ)
        (price : ℚ) (d : Nat),
      (get_price_and_decimals w token).1 = some (price, d) →
      calculate_market_cap w token (Except.ok none) supplyRes = none) ∧
    (∀ (w : ProbeWorld) (token : String) (supplyRes : Except String ℚ)
        (price : ℚ) (d : Nat) (e : String),
      (get_price_and_decimals w token).1 = some (price, d) →
      calculate_market_cap w token (Except.error e) supplyRes =
        some (Except.error e)) := by
  constructor
  · intro w token supplyRes price d hp
    simp [calculate_market_cap, hp]
  · intro w token supplyRes price d e hp
    simp [calculate_market_cap, hp]

/-- Witness for C10: a concrete call with a resolvable price and an
empty lookup result panics; the same call with a database error returns
that error. -/
theorem C10_witness :
    calculate_market_cap ⟨some 6, some (1, 1), none, none, none⟩ "CAKE"
        (Except.ok none) (Except.ok 5) = none ∧
    calculate_market_cap ⟨some 6, some (1, 1), none, none, none⟩ "CAKE"
        (Except.error "db down") (Except.ok 5) =
      some (Except.error "db down") :=
  ⟨C10_missing_project_row_panics.1 _ "CAKE" _ (pairPrice 1 1 6) 6 rfl,
   C10_missing_project_row_panics.2 _ "CAKE" _ (pairPrice 1 1 6) 6 "db down" rfl⟩

/-! ## C4: holder-count estimator -/

theorem scanProbes_spec (H left seg : Nat) :
    ∀ rem i, rem + i = 10 →
      (∀ j, j < i → probeCount H (left + j * seg) = 100) →
      (∀ v, scanProbes H left seg rem i = ProbeScan.found v → v = H + 1) ∧
      (∀ idx, scanProbes H left seg rem i = ProbeScan.zero idx →
        idx < 10 ∧ probeCount H (left + idx * seg) = 0 ∧
        ∀ j, j < idx → probeCount H (left + j * seg) = 100) ∧
      (scanProbes H left seg rem i = ProbeScan.all100 →
        ∀ j, j < 10 → probeCount H (left + j * seg) = 100) := by
  intro rem
  induction rem with
  | zero =>
    intro i hi hpre
    refine ⟨?_, ?_, ?_⟩
    · intro v hv; simp [scanProbes] at hv
    · intro idx hidx; simp [scanProbes] at hidx
    · intro _ j hj
      exact hpre j (by omega)
  | succ rem ih =>
    intro i hi hpre
    by_cases hfound : 0 < probeCount H (left + i * seg) ∧ probeCount H (left + i * seg) < 100
    · have hv : scanProbes H left seg (rem + 1) i =
          ProbeScan.found (left + i * seg + probeCount H (left + i * seg)) := by
        simp [scanProbes, hfound]
      refine ⟨?_, ?_, ?_⟩
      · intro v heq
        rw [hv] at heq
        cases heq
        have hgen : ∀ o c, c = probeCount H o → 0 < c → c < 100 → o + c = H + 1 := by
          intro o c hc h1 h2
          unfold probeCount at hc
          omega
        exact hgen _ _ rfl hfound.1 hfound.2
      · intro idx heq
        rw [hv] at heq
        simp at heq
      · intro heq
        rw [hv] at heq
        simp at heq
    · by_cases hzero : probeCount H (left + i * seg) = 0
      · have hv : scanProbes H left seg (rem + 1) i = ProbeScan.zero i := by
          simp [scanProbes, hfound, hzero]
        refine ⟨?_, ?_, ?_⟩
        · intro v heq; rw [hv] at heq; simp at heq
        · intro idx heq
          rw [hv] at heq
          cases heq
          exact ⟨by omega, hzero, hpre⟩
        · intro heq; rw [hv] at heq; simp at heq
      · have hc100 : probeCount H (left + i * seg) = 100 := by
          have hle : probeCount H (left + i * seg) ≤ 100 := by
            unfold probeCount; omega
          omega
        have hv : scanProbes H left seg (rem + 1) i = scanProbes H left seg rem (i + 1) := by
          simp [scanProbes, hfound, hzero]
        have hpre2 : ∀ j, j < i + 1 → probeCount H (left + j * seg) = 100 := by
          intro j hj
          by_cases hji : j < i
          · exact hpre j hji
          · have : j = i := by omega
            rw [this]
            exact hc100
        rw [hv]
        exact ih (i + 1) (by omega) hpre2

theorem holdersLoop_exit (H f left right probes lastSeg : Nat) (h : ¬ left ≤ right) :
    holdersLoop H (f + 1) left right probes lastSeg = some (left, lastSeg, probes) := by
  simp only [holdersLoop]
  rw [if_neg h]

theorem holdersLoop_step (H f left right probes lastSeg : Nat) (hlr : left ≤ right)
    (hne : ¬ (right - left + 1) / 10 = 0) :
    holdersLoop H (f + 1) left right probes lastSeg =
      match scanProbes H left ((right - left + 1) / 10) 10 0 with
      | ProbeScan.found v => some (v, (right - left + 1) / 10, probes + 10)
      | ProbeScan.zero i =>
        holdersLoop H f (if 0 < i then left + (i - 1) * ((right - left + 1) / 10) else left)
          (left + i * ((right - left + 1) / 10) - 1) (probes + 10) ((right - left + 1) / 10)
      | ProbeScan.all100 =>
        holdersLoop H f (right - (right - left + 1) / 10 + 1) right (probes + 10)
          ((right - left + 1) / 10) := by
  simp only [holdersLoop]
  rw [if_pos hlr, if_neg hne]

theorem holdersLoop_spec (H : Nat) :
    ∀ k, 2 ≤ k → ∀ fuel, k + 1 ≤ fuel → ∀ left right probes lastSeg,
      1 ≤ left → left - 1 ≤ H → H ≤ right → right - left + 1 = 10 ^ k →
      ∃ v seg p2, holdersLoop H fuel left right probes lastSeg = some (v, seg, p2) ∧
        1 ≤ seg ∧ H ≤ v + seg ∧ v ≤ H + 1 ∧ p2 ≤ probes + 10 * (k - 1) := by
  intro k
  induction k using Nat.strong_induction_on with
  | _ k ih =>
    intro hk2 fuel hfuel left right probes lastSeg hl1 hlH hHr hw
    have hpow : (100 : Nat) ≤ 10 ^ k := by
      calc (100 : Nat) = 10 ^ 2 := by norm_num
        _ ≤ 10 ^ k := Nat.pow_le_pow_right (by norm_num) hk2
    have hlr : left ≤ right := by omega
    obtain ⟨f, rfl⟩ : ∃ f, fuel = f + 1 := ⟨fuel - 1, by omega⟩
    have hk10 : (10 : Nat) ^ k = 10 * 10 ^ (k - 1) := by
      have h1 : (10 : Nat) ^ ((k - 1) + 1) = 10 ^ (k - 1) * 10 := pow_succ 10 (k - 1)
      have h2 : (k - 1) + 1 = k := by omega
      rw [h2] at h1
      rw [h1, Nat.mul_comm]
    have hseg : (right - left + 1) / 10 = 10 ^ (k - 1) := by
      rw [hw, hk10]
      exact Nat.mul_div_cancel_left _ (by norm_num)
    have hsegge : (10 : Nat) ≤ 10 ^ (k - 1) := by
      calc (10 : Nat) = 10 ^ 1 := by norm_num
        _ ≤ 10 ^ (k - 1) := Nat.pow_le_pow_right (by norm_num) (by omega)
    have hne : ¬ (right - left + 1) / 10 = 0 := by omega
    have hspec := scanProbes_spec H left (10 ^ (k - 1)) 10 0 (by omega)
      (fun j hj => absurd hj (Nat.not_lt_zero j))
    rw [holdersLoop_step H f left right probes lastSeg hlr hne, hseg]
    cases hscan : scanProbes H left (10 ^ (k - 1)) 10 0 with
    | found v =>
      have hv : v = H + 1 := hspec.1 v hscan
      exact ⟨v, 10 ^ (k - 1), probes + 10, rfl, by omega, by omega, by omega, by omega⟩
    | zero i =>
      obtain ⟨hi10, hz, hall⟩ := hspec.2.1 i hscan
      cases i with
      | zero =>
        have hz0 : probeCount H left = 0 := by simpa using hz
        have hHlt : H + 1 ≤ left := by
          unfold probeCount at hz0
          omega
        obtain ⟨f2, rfl⟩ : ∃ f2, f = f2 + 1 := ⟨f - 1, by omega⟩
        simp only [Nat.lt_irrefl, if_false, Nat.zero_mul, Nat.add_zero]
        rw [holdersLoop_exit H f2 left (left - 1) (probes + 10) (10 ^ (k - 1)) (by omega)]
        exact ⟨left, 10 ^ (k - 1), probes + 10, rfl, by omega, by omega, by omega, by omega⟩
      | succ j =>
        have hprev : probeCount H (left + j * 10 ^ (k - 1)) = 100 := hall j (by omega)
        have hsucc : (j + 1) * 10 ^ (k - 1) = j * 10 ^ (k - 1) + 10 ^ (k - 1) :=
          Nat.succ_mul j (10 ^ (k - 1))
        rw [hsucc] at hz
        simp only [Nat.succ_sub_one, hsucc, Nat.succ_pos, if_true]
        generalize hP : j * 10 ^ (k - 1) = P at hprev hz ⊢
        have hge : left + P + 99 ≤ H := by
          unfold probeCount at hprev
          omega
        have hlt : H + 1 ≤ left + P + 10 ^ (k - 1) := by
          unfold probeCount at hz
          omega
        have hseg100 : (100 : Nat) ≤ 10 ^ (k - 1) := by omega
        have hk1 : 2 ≤ k - 1 := by
          by_contra hcon
          have hk1le : k - 1 ≤ 1 := by omega
          have : (10 : Nat) ^ (k - 1) ≤ 10 ^ 1 := Nat.pow_le_pow_right (by norm_num) hk1le
          simp at this
          omega
        obtain ⟨v, sg, p2, heq, hs1, hs2, hs3, hs4⟩ :=
          ih (k - 1) (by omega) hk1 f (by omega) (left + P)
            (left + P + 10 ^ (k - 1) - 1) (probes + 10) (10 ^ (k - 1))
            (by omega) (by omega) (by omega) (by omega)
        have harg : left + (P + 10 ^ (k - 1)) - 1 = left + P + 10 ^ (k - 1) - 1 := by omega
        refine ⟨v, sg, p2, ?_, hs1, hs2, hs3, by omega⟩
        rw [harg]
        exact heq
    | all100 =>
      have hall := hspec.2.2 hscan
      have h9 : probeCount H (left + 9 * 10 ^ (k - 1)) = 100 := hall 9 (by norm_num)
      have hge : left + 9 * 10 ^ (k - 1) + 99 ≤ H := by
        unfold probeCount at h9
        omega
      have hrl : right = left + 10 * 10 ^ (k - 1) - 1 := by omega
      have hseg100 : (100 : Nat) ≤ 10 ^ (k - 1) := by omega
      have hk1 : 2 ≤ k - 1 := by
        by_contra hcon
        have hk1le : k - 1 ≤ 1 := by omega
        have : (10 : Nat) ^ (k - 1) ≤ 10 ^ 1 := Nat.pow_le_pow_right (by norm_num) hk1le
        simp at this
        omega
      obtain ⟨v, sg, p2, heq, hs1, hs2, hs3, hs4⟩ :=
        ih (k - 1) (by omega) hk1 f (by omega) (right - 10 ^ (k - 1) + 1) right
          (probes + 10) (10 ^ (k - 1))
          (by omega) (by omega) (by omega) (by omega)
      exact ⟨v, sg, p2, heq, hs1, hs2, hs3, by omega⟩

/-- C4 counterexample: against the claim's own probe model
`min(100, max(0, H - o + 1))`, the estimator at H = 237 terminates via
the partial-page case but returns `offset + count = 201 + 37 = 238`,
not 237; and at H = 10^9 it issues 80 probe calls, exceeding the claimed
budget of `10 * ceil(log10(10^9 / 100)) = 70`. -/
theorem C4_counterexample :
    (get_number_of_token_holders 237 = some (238, 100, 70) ∧ 238 ≠ 237) ∧
    (get_number_of_token_holders 1000000000 = some (1000000001, 10, 80) ∧
      ¬ 80 ≤ 70) :=
  ⟨⟨by decide, by decide⟩, ⟨by decide, by decide⟩⟩

/-- C4 (amended): for every simulated source with `H ≤ 10^9` holders,
`get_number_of_token_holders` terminates (well within twelve loop
iterations) and returns an estimate `v` with `|v - H| ≤` the segment
width at termination (indeed `v ≤ H + 1`), issuing at most 80 probe
calls — ten per round, at most eight rounds, since a round whose segment
is below 100 always ends the search; a partial page at offset `o`
returns `o + (H + 1 - o) = H + 1`, so H = 237 yields exactly 238 (probe
at offset 201 sees 37 records). -/
theorem C4_holder_count_estimate_bounds :
    (∀ H : Nat, H ≤ 1000000000 →
      ∃ v seg probes, get_number_of_token_holders H = some (v, seg, probes) ∧
        1 ≤ seg ∧ H ≤ v + seg ∧ v ≤ H + 1 ∧ probes ≤ 80) ∧
    get_number_of_token_holders 237 = some (238, 100, 70) := by
  constructor
  · intro H hH
    obtain ⟨v, seg, p2, heq, h1, h2, h3, h4⟩ :=
      holdersLoop_spec H 9 (by norm_num) 12 (by norm_num) 1 1000000000 0 0
        (le_refl 1) (by omega) hH (by norm_num)
    exact ⟨v, seg, p2, heq, h1, h2, h3, by omega⟩
  · decide

/-- Witness for C4 at H = 237. -/
theorem C4_witness :
    ∃ v seg probes, get_number_of_token_holders 237 = some (v, seg, probes) ∧
      1 ≤ seg ∧ 237 ≤ v + seg ∧ v ≤ 237 + 1 ∧ probes ≤ 80 :=
  C4_holder_count_estimate_bounds.1 237 (by norm_num)

/-! ## C1: safety ceiling and exactness flag -/

theorem dauBatch_empty (today : Int) :
    ∀ n off users, dauBatch (fun _ => Except.ok []) today n off (users, false) =
      (users, false) := by
  intro n
  induction n with
  | zero => intro off users; rfl
  | succ n ih => intro off users; simp [dauBatch, dauScan, ih]

theorem dauLoop_empty (today : Int) :
    ∀ fuel off users, dauLoop (fun _ => Except.ok []) today fuel off users = none := by
  intro fuel
  induction fuel with
  | zero => intro off users; rfl
  | succ f ih => intro off users; simp [dauLoop, dauBatch_empty, ih]

theorem wauBatch_empty (cutoff : Int) :
    ∀ n off users, wauBatch (fun _ => Except.ok []) cutoff n off (users, false) =
      (users, false) := by
  intro n
  induction n with
  | zero => intro off users; rfl
  | succ n ih => intro off users; simp [wauBatch, wauScan, ih]

theorem wauLoop_total (fetch : Nat → Except String (List URec)) (cutoff : Int) :
    ∀ fuel off users, 500000 ≤ off + 25000 * fuel → 1 ≤ fuel →
      ∃ n, wauLoop fetch cutoff fuel off users = some n := by
  intro fuel
  induction fuel with
  | zero => intro off users h h1; omega
  | succ f ih =>
    intro off users h h1
    simp only [wauLoop]
    by_cases hr : (wauBatch fetch cutoff 250 off (users, false)).2
    · exact ⟨_, by rw [if_pos hr]⟩
    · rw [if_neg hr]
      by_cases hc : 500000 ≤ off + 25000
      · exact ⟨_, by rw [if_pos hc]⟩
      · rw [if_neg hc]
        exact ih (off + 25000) _ (by omega) (by omega)

theorem wauLoop_empty (cutoff : Int) :
    ∀ fuel off users, 500000 ≤ off + 25000 * fuel → 1 ≤ fuel →
      wauLoop (fun _ => Except.ok []) cutoff fuel off users = some users.card := by
  intro fuel
  induction fuel with
  | zero => intro off users h h1; omega
  | succ f ih =>
    intro off users h h1
    by_cases hc : 500000 ≤ off + 25000
    · simp [wauLoop, wauBatch_empty, hc]
    · simp only [wauLoop, wauBatch_empty, hc]
      simp only [Bool.false_eq_true, if_false]
      exact ih (off + 25000) users (by omega) (by omega)

/-- C1 counterexample: `get_daily_active_users` has no record ceiling at
all: against a remote that never produces a record older than the
window (here: all pages empty), its pagination loop is still running
after 101 batches, i.e. after the offset has passed 500,000 records —
the claimed hard ceiling does not force termination for this windowed
aggregation (nor for `calculate_trading_volume`). -/
theorem C1_counterexample :
    get_daily_active_users (fun _ => Except.ok []) 0 101 = none :=
  dauLoop_empty 0 101 0 ∅

set_option maxRecDepth 20000 in
/-- C1 (amended): only `get_weekly_active_users` has the 500,000-offset
safety break, and it makes that aggregation terminate within 20 batches
against every remote, even one that never shows a record older than the
cutoff; `calculate_trading_volume` and `get_daily_active_users` have no
ceiling; and no aggregation returns an exactness flag to the caller —
the truncated/exact distinction is only printed, so a truncated run
(empty remote: the boundary is never observed and the ceiling fires)
and an exact run (boundary observed in the first page) both return the
bare count, here the same value `some 0`. -/
theorem C1_ceiling_only_weekly_and_no_flag :
    (∀ (fetch : Nat → Except String (List URec)) (cutoff : Int),
      ∃ n, get_weekly_active_users fetch cutoff 20 = some n) ∧
    get_weekly_active_users (fun _ => Except.ok []) 0 20 = some 0 ∧
    get_weekly_active_users
        (fun o => if o = 0 then Except.ok [⟨"s", -1⟩] else Except.ok []) 0 20 =
      some 0 := by
  refine ⟨?_, ?_, ?_⟩
  · intro fetch cutoff
    exact wauLoop_total fetch cutoff 20 0 ∅ (by norm_num) (by norm_num)
  · have h := wauLoop_empty 0 20 0 ∅ (by norm_num) (by norm_num)
    simpa [get_weekly_active_users] using h
  · decide

/-! ## C2: page-error propagation -/

set_option maxRecDepth 20000 in
theorem tvErrFetch_loop_eval :
    tvLoop tvErrFetch 0 1 0 [] = some (Except.ok [("A", 7)]) := by decide

/-- C2 counterexample: a page fetch of `calculate_trading_volume` fails
(offset 100 returns a transport error), yet because an earlier task in
the same batch already reported the window boundary, the orchestrator's
result scan breaks before reaching the error and the aggregation
returns `Ok` with the partial sum instead of the error. -/
theorem C2_counterexample :
    tvErrFetch 100 = Except.error "boom" ∧
    calculate_trading_volume tvErrFetch 0 (fun _ => some ((1 : ℚ), 0)) 1 =
      some (Except.ok 7) := by
  constructor
  · rfl
  · unfold calculate_trading_volume
    rw [tvErrFetch_loop_eval]
    simp [Except.map, convertVolumes]

set_option maxRecDepth 20000 in
/-- C2 (amended): `calculate_trading_volume` propagates a failing page
fetch as the failure of the whole aggregation when no earlier task of
the batch has reported the window boundary (in particular whenever the
first page's fetch fails), but a boundary reported earlier in the batch
makes the result scan break before the error (see the counterexample);
`get_daily_active_users` (and `get_weekly_active_users`, of identical
merge shape) never propagates page errors: they are logged and skipped
and a best-effort count is returned whatever the error was. -/
theorem C2_error_propagation_policy :
    (∀ (fetch : Nat → Except String (List Tx)) (cutoff : Int)
        (price : String → Option (ℚ × Nat)) (fuel : Nat) (e : String),
      1 ≤ fuel → fetch 0 = Except.error e →
      calculate_trading_volume fetch cutoff price fuel = some (Except.error e)) ∧
    (∀ e : String, get_daily_active_users (dauErrFetch e) 0 1 = some 1) := by
  constructor
  · intro fetch cutoff price fuel e hfuel hf
    obtain ⟨f, rfl⟩ : ∃ f, fuel = f + 1 := ⟨fuel - 1, by omega⟩
    have hstep : ∀ n, tvBatch fetch cutoff (n + 1) 0 [] =
        ((tvBatch fetch cutoff n 100 []).1,
          Except.error e :: (tvBatch fetch cutoff n 100 []).2) := by
      intro n
      simp only [tvBatch, hf]
    have hb : (tvBatch fetch cutoff 250 0 []).2 =
        Except.error e :: (tvBatch fetch cutoff 249 100 []).2 := by
      rw [show (250 : Nat) = 249 + 1 from rfl, hstep 249]
    have hres : resolveTv (tvBatch fetch cutoff 250 0 []).2 = Except.error e := by
      rw [hb]
      rfl
    have hloop : tvLoop fetch cutoff (f + 1) 0 [] = some (Except.error e) := by
      simp only [tvLoop]
      rw [hres]
    unfold calculate_trading_volume
    rw [hloop]
    rfl
  · intro e
    rfl

/-- Witness for C2: an aggregation whose very first page fetch fails
returns that error, and the daily-active-users run with a failing page
at offset 100 returns the partial count 1. -/
theorem C2_witness :
    calculate_trading_volume (fun _ => Except.error "down") 0 (fun _ => none) 1 =
      some (Except.error "down") ∧
    get_daily_active_users (dauErrFetch "x") 0 1 = some 1 :=
  ⟨C2_error_propagation_policy.1 (fun _ => Except.error "down") 0 (fun _ => none) 1
      "down" (by norm_num) rfl,
   C2_error_propagation_policy.2 "x"⟩

/-! ## C3: windowed aggregation computes the in-window reduction

Throughout, the synthetic stream is split as `A ++ B` (newest first):
every record of `A` lies inside the window, every record of `B` is older
than the cutoff. -/

theorem wauScan_in_window (cutoff : Int) :
    ∀ X : List URec, (∀ r ∈ X, r.date ≥ cutoff) →
      wauScan cutoff X = (X.map URec.sender, false) := by
  intro X
  induction X with
  | nil => intro _; rfl
  | cons r rest ih =>
    intro h
    have hr : r.date ≥ cutoff := h r (by simp)
    have hrest := ih (fun x hx => h x (by simp [hx]))
    simp [wauScan, hr, hrest]

theorem wauScan_boundary (cutoff : Int) (y : URec) (hy : ¬(y.date ≥ cutoff)) :
    ∀ (X Y2 : List URec), (∀ r ∈ X, r.date ≥ cutoff) →
      wauScan cutoff (X ++ y :: Y2) = (X.map URec.sender, true) := by
  intro X
  induction X with
  | nil =>
    intro Y2 _
    simp [wauScan, hy]
  | cons r rest ih =>
    intro Y2 h
    have hr : r.date ≥ cutoff := h r (by simp)
    have hrest := ih Y2 (fun x hx => h x (by simp [hx]))
    simp [wauScan, hr, hrest]

theorem wauScan_page (cutoff : Int) (A B : List URec)
    (hA : ∀ r ∈ A, r.date ≥ cutoff) (hB : ∀ r ∈ B, ¬(r.date ≥ cutoff))
    (hM : 1 ≤ B.length) (o : Nat) :
    wauScan cutoff (pageOf (A ++ B) o) =
      (((A.drop o).take 100).map URec.sender,
        decide (A.length < o + 100 ∧ o < A.length + B.length)) := by
  have hpage : pageOf (A ++ B) o =
      (A.drop o).take 100 ++ (B.drop (o - A.length)).take (100 - (A.drop o).length) := by
    unfold pageOf
    rw [List.drop_append_eq_append_drop, List.take_append_eq_append_take]
  have hX : ∀ r ∈ (A.drop o).take 100, r.date ≥ cutoff :=
    fun r hr => hA r (List.drop_subset o A (List.take_subset 100 _ hr))
  have hlenD : (A.drop o).length = A.length - o := List.length_drop o A
  rw [hpage]
  rcases hYe : (B.drop (o - A.length)).take (100 - (A.drop o).length) with _ | ⟨y, Y2⟩
  · rw [List.append_nil, wauScan_in_window cutoff _ hX]
    have h1 : 100 - (A.drop o).length = 0 ∨ B.drop (o - A.length) = [] :=
      List.take_eq_nil_iff.mp hYe
    have h2 : B.drop (o - A.length) = [] ↔ B.length ≤ o - A.length :=
      List.drop_eq_nil_iff
    congr 1
    symm
    rw [decide_eq_false_iff_not]
    rcases h1 with h1 | h1
    · omega
    · have := h2.mp h1
      omega
  · have hy : ¬(y.date ≥ cutoff) := hB y (by
      have hmem : y ∈ (B.drop (o - A.length)).take (100 - (A.drop o).length) := by
        rw [hYe]; simp
      exact List.drop_subset _ _ (List.take_subset _ _ hmem))
    rw [wauScan_boundary cutoff y hy _ Y2 hX]
    have hlen := congrArg List.length hYe
    rw [List.length_take, List.length_drop] at hlen
    simp at hlen
    congr 1
    symm
    rw [decide_eq_true_eq]
    omega

theorem wauBatch_stream (cutoff : Int) (A B : List URec)
    (hA : ∀ r ∈ A, r.date ≥ cutoff) (hB : ∀ r ∈ B, ¬(r.date ≥ cutoff))
    (hM : 1 ≤ B.length) :
    ∀ (n off : Nat) (users : Finset String) (found : Bool),
      wauBatch (streamFetch (A ++ B)) cutoff n off (users, found) =
        (users ∪ (((A.drop off).take (100 * n)).map URec.sender).toFinset,
          found || decide (1 ≤ n ∧ A.length < off + 100 * n ∧
            off < A.length + B.length)) := by
  intro n
  induction n with
  | zero =>
    intro off users found
    simp [wauBatch]
  | succ n ih =>
    intro off users found
    have hstep : wauBatch (streamFetch (A ++ B)) cutoff (n + 1) off (users, found) =
        wauBatch (streamFetch (A ++ B)) cutoff n (off + 100)
          (users ∪ (((A.drop off).take 100).map URec.sender).toFinset,
            found || decide (A.length < off + 100 ∧ off < A.length + B.length)) := by
      simp only [wauBatch, streamFetch]
      rw [wauScan_page cutoff A B hA hB hM off]
    rw [hstep, ih]
    have hsplit : (A.drop off).take (100 * (n + 1)) =
        (A.drop off).take 100 ++ (A.drop (off + 100)).take (100 * n) := by
      rw [show 100 * (n + 1) = 100 + 100 * n by ring, List.take_add]
      congr 1
      rw [List.drop_drop, Nat.add_comm]
    rw [Prod.mk.injEq]
    constructor
    · rw [hsplit, List.map_append, List.toFinset_append, Finset.union_assoc]
    · rw [Bool.or_assoc]
      congr 1
      rw [← Bool.decide_or]
      exact decide_eq_decide.mpr (by omega)

theorem wauLoop_stream (cutoff : Int) (A B : List URec)
    (hA : ∀ r ∈ A, r.date ≥ cutoff) (hB : ∀ r ∈ B, ¬(r.date ≥ cutoff))
    (hM : B ≠ []) (hK : A.length < 500000) :
    ∀ (fuel off : Nat) (users : Finset String),
      off ≤ A.length → A.length < off + 25000 * fuel →
      wauLoop (streamFetch (A ++ B)) cutoff fuel off users =
        some (users ∪ ((A.drop off).map URec.sender).toFinset).card := by
  have hMpos : 1 ≤ B.length := List.length_pos.mpr hM
  intro fuel
  induction fuel with
  | zero => intro off users h1 h2; omega
  | succ fuel ih =>
    intro off users h1 h2
    simp only [wauLoop, wauBatch_stream cutoff A B hA hB hMpos 250 off users false,
      Bool.false_or]
    by_cases hb : A.length < off + 25000
    · have hcond : decide (1 ≤ 250 ∧ A.length < off + 100 * 250 ∧
          off < A.length + B.length) = true := by
        rw [decide_eq_true_eq]
        refine ⟨by norm_num, by omega, by omega⟩
      rw [if_pos hcond]
      have htake : (A.drop off).take (100 * 250) = A.drop off := by
        apply List.take_of_length_le
        rw [List.length_drop]
        omega
      rw [htake]
    · have hcond : decide (1 ≤ 250 ∧ A.length < off + 100 * 250 ∧
          off < A.length + B.length) = false := by
        rw [decide_eq_false_iff_not]
        omega
      have hcondF : ¬ (decide (1 ≤ 250 ∧ A.length < off + 100 * 250 ∧
          off < A.length + B.length) = true) := by
        rw [hcond]
        simp
      rw [if_neg hcondF]
      have hceil : ¬ 500000 ≤ off + 25000 := by omega
      rw [if_neg hceil]
      rw [ih (off + 25000) (users ∪ (((A.drop off).take (100 * 250)).map
        URec.sender).toFinset) (by omega) (by omega)]
      congr 2
      rw [Finset.union_assoc]
      congr 1
      have hsplit : A.drop off = (A.drop off).take (100 * 250) ++
          A.drop (off + 25000) := by
        conv_lhs => rw [← List.take_append_drop (100 * 250) (A.drop off)]
        congr 1
        rw [List.drop_drop]
      conv_rhs => rw [hsplit]
      rw [List.map_append, List.toFinset_append]

theorem lookupVol_addVol (c0 : String) (n : Nat) :
    ∀ (m : CoinMap) (c : String),
      lookupVol (addVol m c0 n) c =
        if c0 = c then lookupVol m c + n else lookupVol m c := by
  intro m
  induction m with
  | nil =>
    intro c
    by_cases h : c0 = c <;> simp [addVol, lookupVol, List.find?, h]
  | cons kv rest ih =>
    intro c
    obtain ⟨c1, n1⟩ := kv
    by_cases h1 : c1 = c0
    · subst h1
      by_cases h : c1 = c <;> simp [addVol, lookupVol, List.find?, h]
    · by_cases h : c1 = c
      · subst h
        have h0 : ¬ c0 = c1 := fun hh => h1 hh.symm
        simp [addVol, lookupVol, List.find?, h1, h0]
      · simpa [addVol, lookupVol, List.find?, h1, h] using ih c

theorem volOf_cons (a : Act) (l : List Act) (c : String) :
    volOf (a :: l) c = (if a.coin = c then a.amount else 0) + volOf l c := by
  by_cases h : a.coin = c <;> simp [volOf, List.filter_cons, h]

theorem lookupVol_addAllActs :
    ∀ (l : List Act) (m : CoinMap) (c : String),
      lookupVol (addAllActs m l) c = lookupVol m c + volOf l c := by
  intro l
  induction l with
  | nil => intro m c; simp [addAllActs, volOf]
  | cons a rest ih =>
    intro m c
    have hstep : addAllActs m (a :: rest) =
        addAllActs (addVol m a.coin a.amount) rest := rfl
    rw [hstep, ih, lookupVol_addVol, volOf_cons]
    by_cases h : a.coin = c <;> (simp [h]; try omega)

theorem addAllActs_append (m : CoinMap) (l1 l2 : List Act) :
    addAllActs m (l1 ++ l2) = addAllActs (addAllActs m l1) l2 := by
  simp [addAllActs, List.foldl_append]

theorem scanActs_in_window (cutoff : Int) :
    ∀ (X : List Act) (m : CoinMap), (∀ a ∈ X, ¬(a.ts < cutoff)) →
      scanActs cutoff m X = (addAllActs m X, false) := by
  intro X
  induction X with
  | nil => intro m _; rfl
  | cons a rest ih =>
    intro m h
    have ha : ¬(a.ts < cutoff) := h a (by simp)
    have hrest := ih (addVol m a.coin a.amount) (fun x hx => h x (by simp [hx]))
    simp [scanActs, ha, hrest, addAllActs]

theorem scanActs_boundary (cutoff : Int) (y : Act) (hy : y.ts < cutoff) :
    ∀ (X Y2 : List Act) (m : CoinMap), (∀ a ∈ X, ¬(a.ts < cutoff)) →
      scanActs cutoff m (X ++ y :: Y2) = (addAllActs m X, true) := by
  intro X
  induction X with
  | nil =>
    intro Y2 m _
    simp [scanActs, hy, addAllActs]
  | cons a rest ih =>
    intro Y2 m h
    have ha : ¬(a.ts < cutoff) := h a (by simp)
    have hrest := ih Y2 (addVol m a.coin a.amount) (fun x hx => h x (by simp [hx]))
    simp [scanActs, ha, hrest, addAllActs]

theorem scanTxs_in_window (cutoff : Int) :
    ∀ (txs : List Tx) (m : CoinMap), (∀ tx ∈ txs, ∀ a ∈ tx, ¬(a.ts < cutoff)) →
      scanTxs cutoff m txs = (addAllActs m txs.flatten, false) := by
  intro txs
  induction txs with
  | nil => intro m _; rfl
  | cons t rest ih =>
    intro m h
    have ht := scanActs_in_window cutoff t m (h t (by simp))
    have hrest := ih (addAllActs m t) (fun tx htx => h tx (by simp [htx]))
    simp [scanTxs, ht, hrest, List.flatten_cons, addAllActs_append]

theorem scanTxs_boundary (cutoff : Int) (qA : List Act) (y : Act) (qB2 : List Act)
    (rest : List Tx) (hqA : ∀ a ∈ qA, ¬(a.ts < cutoff)) (hy : y.ts < cutoff) :
    ∀ (Ptxs : List Tx) (m : CoinMap), (∀ tx ∈ Ptxs, ∀ a ∈ tx, ¬(a.ts < cutoff)) →
      scanTxs cutoff m (Ptxs ++ (qA ++ y :: qB2) :: rest) =
        (addAllActs m (Ptxs.flatten ++ qA), true) := by
  intro Ptxs
  induction Ptxs with
  | nil =>
    intro m _
    have hq := scanActs_boundary cutoff y hy qA qB2 m hqA
    simp [scanTxs, hq]
  | cons t Prest ih =>
    intro m h
    have ht := scanActs_in_window cutoff t m (h t (by simp))
    have hrest := ih (addAllActs m t) (fun tx htx => h tx (by simp [htx]))
    simp [scanTxs, ht, hrest, List.flatten_cons, addAllActs_append]

theorem scanTxs_all_old (cutoff : Int) :
    ∀ (txs : List Tx) (m : CoinMap), (∀ tx ∈ txs, ∀ a ∈ tx, a.ts < cutoff) →
      (scanTxs cutoff m txs).1 = m := by
  intro txs
  induction txs with
  | nil => intro m _; rfl
  | cons t rest ih =>
    intro m h
    cases t with
    | nil =>
      have hrest := ih m (fun tx htx => h tx (by simp [htx]))
      simp [scanTxs, scanActs, hrest]
    | cons a arest =>
      have ha : a.ts < cutoff := h (a :: arest) (by simp) a (by simp)
      simp [scanTxs, scanActs, ha]

theorem tvPage_pre (P : List Tx) (q : Tx) (Q2 : List Tx) (o : Nat)
    (h : o + 100 ≤ P.length) :
    pageOf (P ++ q :: Q2) o = (P.drop o).take 100 := by
  unfold pageOf
  rw [List.drop_append_eq_append_drop, List.take_append_eq_append_take]
  have h1 : 100 - (List.drop o P).length = 0 := by
    rw [List.length_drop]
    omega
  rw [h1, List.take_zero, List.append_nil]

theorem tvPage_boundary (P : List Tx) (q : Tx) (Q2 : List Tx) (o : Nat)
    (h1 : o ≤ P.length) (h2 : P.length < o + 100) :
    pageOf (P ++ q :: Q2) o =
      P.drop o ++ q :: Q2.take (100 - (P.length - o) - 1) := by
  unfold pageOf
  rw [List.drop_append_eq_append_drop, List.take_append_eq_append_take]
  have hz : o - P.length = 0 := by omega
  rw [hz, List.drop_zero]
  have htk : (List.drop o P).take 100 = List.drop o P :=
    List.take_of_length_le (by rw [List.length_drop]; omega)
  rw [htk]
  congr 1
  rw [List.length_drop]
  obtain ⟨c, hc⟩ : ∃ c, 100 - (P.length - o) = c + 1 :=
    ⟨100 - (P.length - o) - 1, by omega⟩
  rw [hc, List.take_succ_cons]
  simp

theorem tvPage_post (P : List Tx) (q : Tx) (Q2 : List Tx) (o : Nat)
    (h : P.length < o) :
    pageOf (P ++ q :: Q2) o = (Q2.drop (o - P.length - 1)).take 100 := by
  unfold pageOf
  rw [List.drop_append_eq_append_drop]
  have hP : List.drop o P = [] := List.drop_eq_nil_of_le (by omega)
  rw [hP, List.nil_append]
  congr 1
  obtain ⟨c, hc⟩ : ∃ c, o - P.length = c + 1 := ⟨o - P.length - 1, by omega⟩
  rw [hc, List.drop_succ_cons]
  simp

theorem tvBatch_post (cutoff : Int) (P : List Tx) (qA : List Act) (y : Act)
    (qB2 : List Act) (Q2 : List Tx)
    (hQ2 : ∀ tx ∈ Q2, ∀ a ∈ tx, a.ts < cutoff) :
    ∀ (n o : Nat) (m : CoinMap), P.length < o →
      (tvBatch (streamFetch (P ++ (qA ++ y :: qB2) :: Q2)) cutoff n o m).1 = m := by
  intro n
  induction n with
  | zero => intro o m _; rfl
  | succ n ih =>
    intro o m ho
    have hpage := tvPage_post P (qA ++ y :: qB2) Q2 o ho
    have hmem : ∀ tx ∈ pageOf (P ++ (qA ++ y :: qB2) :: Q2) o, ∀ a ∈ tx,
        a.ts < cutoff := by
      rw [hpage]
      intro tx htx
      exact hQ2 tx (List.drop_subset _ _ (List.take_subset _ _ htx))
    have hfst : (scanTxs cutoff m (pageOf (P ++ (qA ++ y :: qB2) :: Q2) o)).1 = m :=
      scanTxs_all_old cutoff _ m hmem
    simp only [tvBatch, streamFetch, hfst]
    exact ih (o + 100) m (by omega)

theorem tvBatch_pre (cutoff : Int) (P : List Tx) (q : Tx) (Q2 : List Tx)
    (hP : ∀ tx ∈ P, ∀ a ∈ tx, ¬(a.ts < cutoff)) :
    ∀ (n off : Nat) (m : CoinMap), off + 100 * n ≤ P.length →
      tvBatch (streamFetch (P ++ q :: Q2)) cutoff n off m =
        (addAllActs m ((P.drop off).take (100 * n)).flatten,
          List.replicate n (Except.ok false)) := by
  intro n
  induction n with
  | zero =>
    intro off m _
    simp [tvBatch, addAllActs]
  | succ n ih =>
    intro off m h
    have hpage := tvPage_pre P q Q2 off (by omega)
    have hmem : ∀ tx ∈ (P.drop off).take 100, ∀ a ∈ tx, ¬(a.ts < cutoff) :=
      fun tx htx => hP tx (List.drop_subset _ _ (List.take_subset _ _ htx))
    have hscan := scanTxs_in_window cutoff _ m hmem
    simp only [tvBatch, streamFetch, hpage, hscan]
    rw [ih (off + 100) _ (by omega)]
    have hsplit : (P.drop off).take (100 * (n + 1)) =
        (P.drop off).take 100 ++ (P.drop (off + 100)).take (100 * n) := by
      rw [show 100 * (n + 1) = 100 + 100 * n by ring, List.take_add]
      congr 1
      rw [List.drop_drop, Nat.add_comm]
    rw [Prod.mk.injEq]
    constructor
    · rw [hsplit, List.flatten_append, addAllActs_append]
    · rw [List.replicate_succ]

theorem tvBatch_boundary (cutoff : Int) (P : List Tx) (qA : List Act) (y : Act)
    (qB2 : List Act) (Q2 : List Tx)
    (hP : ∀ tx ∈ P, ∀ a ∈ tx, ¬(a.ts < cutoff))
    (hqA : ∀ a ∈ qA, ¬(a.ts < cutoff)) (hy : y.ts < cutoff)
    (hQ2 : ∀ tx ∈ Q2, ∀ a ∈ tx, a.ts < cutoff) :
    ∀ (n off : Nat) (m : CoinMap), off ≤ P.length → P.length < off + 100 * n →
      (tvBatch (streamFetch (P ++ (qA ++ y :: qB2) :: Q2)) cutoff n off m).1 =
          addAllActs m (((P.drop off).take (100 * n)).flatten ++ qA) ∧
        resolveTv
            (tvBatch (streamFetch (P ++ (qA ++ y :: qB2) :: Q2)) cutoff n off m).2 =
          Except.ok true := by
  intro n
  induction n with
  | zero => intro off m h1 h2; omega
  | succ n ih =>
    intro off m h1 h2
    by_cases hb : P.length < off + 100
    · have hpage := tvPage_boundary P (qA ++ y :: qB2) Q2 off h1 hb
      have hmemP : ∀ tx ∈ P.drop off, ∀ a ∈ tx, ¬(a.ts < cutoff) :=
        fun tx htx => hP tx (List.drop_subset _ _ htx)
      have hscan := scanTxs_boundary cutoff qA y qB2
        (Q2.take (100 - (P.length - off) - 1)) hqA hy (P.drop off) m hmemP
      have htk : (P.drop off).take (100 * (n + 1)) = P.drop off :=
        List.take_of_length_le (by rw [List.length_drop]; omega)
      constructor
      · simp only [tvBatch, streamFetch, hpage, hscan]
        rw [tvBatch_post cutoff P qA y qB2 Q2 hQ2 n (off + 100) _ (by omega), htk]
      · simp only [tvBatch, streamFetch, hpage, hscan]
        rfl
    · have hpage := tvPage_pre P (qA ++ y :: qB2) Q2 off (by omega)
      have hmem : ∀ tx ∈ (P.drop off).take 100, ∀ a ∈ tx, ¬(a.ts < cutoff) :=
        fun tx htx => hP tx (List.drop_subset _ _ (List.take_subset _ _ htx))
      have hscan := scanTxs_in_window cutoff _ m hmem
      obtain ⟨ih1, ih2⟩ := ih (off + 100)
        (addAllActs m ((P.drop off).take 100).flatten) (by omega) (by omega)
      have hsplit : (P.drop off).take (100 * (n + 1)) =
          (P.drop off).take 100 ++ (P.drop (off + 100)).take (100 * n) := by
        rw [show 100 * (n + 1) = 100 + 100 * n by ring, List.take_add]
        congr 1
        rw [List.drop_drop, Nat.add_comm]
      constructor
      · simp only [tvBatch, streamFetch, hpage, hscan]
        rw [ih1]
        conv_rhs => rw [hsplit, List.flatten_append, List.append_assoc,
          addAllActs_append]
      · simp only [tvBatch, streamFetch, hpage, hscan]
        exact ih2

theorem resolveTv_replicate_false :
    ∀ n, resolveTv (List.replicate n (Except.ok false)) = Except.ok false := by
  intro n
  induction n with
  | zero => rfl
  | succ n ih =>
    rw [List.replicate_succ]
    exact ih

theorem tvLoop_stream (cutoff : Int) (P : List Tx) (qA : List Act) (y : Act)
    (qB2 : List Act) (Q2 : List Tx)
    (hP : ∀ tx ∈ P, ∀ a ∈ tx, ¬(a.ts < cutoff))
    (hqA : ∀ a ∈ qA, ¬(a.ts < cutoff)) (hy : y.ts < cutoff)
    (hQ2 : ∀ tx ∈ Q2, ∀ a ∈ tx, a.ts < cutoff) :
    ∀ (fuel off : Nat) (m : CoinMap), off ≤ P.length →
      P.length < off + 25000 * fuel →
      tvLoop (streamFetch (P ++ (qA ++ y :: qB2) :: Q2)) cutoff fuel off m =
        some (Except.ok (addAllActs m ((P.drop off).flatten ++ qA))) := by
  intro fuel
  induction fuel with
  | zero => intro off m h1 h2; omega
  | succ fuel ih =>
    intro off m h1 h2
    simp only [tvLoop]
    by_cases hb : P.length < off + 25000
    · obtain ⟨hm, hres⟩ := tvBatch_boundary cutoff P qA y qB2 Q2 hP hqA hy hQ2
        250 off m h1 (by omega)
      rw [hres, hm]
      have htk : (P.drop off).take (100 * 250) = P.drop off :=
        List.take_of_length_le (by rw [List.length_drop]; omega)
      rw [htk]
    · have hpre := tvBatch_pre cutoff P (qA ++ y :: qB2) Q2 hP 250 off m (by omega)
      simp only [hpre, resolveTv_replicate_false]
      rw [ih (off + 25000) _ (by omega) (by omega)]
      have hsplit : P.drop off = (P.drop off).take (100 * 250) ++
          P.drop (off + 25000) := by
        conv_lhs => rw [← List.take_append_drop (100 * 250) (P.drop off)]
        congr 1
        rw [List.drop_drop]
      conv_rhs => rw [hsplit, List.flatten_append, List.append_assoc,
        addAllActs_append]

/-- C3: on a synthetic record stream ordered newest-first whose
in-window records precede all older-than-cutoff records, the windowed
aggregators compute exactly the reduction over the in-window records.
For `calculate_trading_volume` the stream is a transaction list
`P ++ (qA ++ y :: qB2) :: Q2` — the transactions of `P` and the prefix
`qA` of the boundary transaction are in-window, the activity `y` and
everything after it are older — and the merged `coin_volumes` map gives,
for every coin, the sum of the raw amounts of exactly the in-window
activities `P.flatten ++ qA`: each task stops scanning at the first
older record and the loop stops after the batch whose page reported the
boundary.  For `get_weekly_active_users` the stream is `A ++ B` with `A`
in-window and `B` older and nonempty, and (provided the stream ends
within the 500,000-offset ceiling) the result is the cardinality of the
set of senders of exactly the `A`-records. -/
theorem C3_window_reduction :
    (∀ (P : List Tx) (qA : List Act) (y : Act) (qB2 : List Act) (Q2 : List Tx)
        (cutoff : Int),
      (∀ tx ∈ P, ∀ a ∈ tx, ¬(a.ts < cutoff)) →
      (∀ a ∈ qA, ¬(a.ts < cutoff)) →
      y.ts < cutoff →
      (∀ a ∈ qB2, a.ts < cutoff) →
      (∀ tx ∈ Q2, ∀ a ∈ tx, a.ts < cutoff) →
      ∀ c, optLookup (tvLoop (streamFetch (P ++ (qA ++ y :: qB2) :: Q2)) cutoff
          (P.length / 25000 + 1) 0 []) c =
        some (Except.ok (volOf (P.flatten ++ qA) c))) ∧
    (∀ (A B : List URec) (cutoff : Int),
      (∀ r ∈ A, r.date ≥ cutoff) → (∀ r ∈ B, ¬(r.date ≥ cutoff)) →
      B ≠ [] → A.length + B.length ≤ 500000 →
      get_weekly_active_users (streamFetch (A ++ B)) cutoff 20 =
        some ((A.map URec.sender).toFinset).card) := by
  constructor
  · intro P qA y qB2 Q2 cutoff hP hqA hy hqB2 hQ2 c
    rw [tvLoop_stream cutoff P qA y qB2 Q2 hP hqA hy hQ2 (P.length / 25000 + 1)
      0 [] (by omega) (by omega)]
    show some (Except.ok (lookupVol (addAllActs [] (P.flatten ++ qA)) c)) =
      some (Except.ok (volOf (P.flatten ++ qA) c))
    rw [lookupVol_addAllActs]
    simp [lookupVol]
  · intro A B cutoff hA hB hM hbound
    have hMpos : 1 ≤ B.length := List.length_pos.mpr hM
    unfold get_weekly_active_users
    rw [wauLoop_stream cutoff A B hA hB hM (by omega) 20 0 ∅ (by omega) (by omega)]
    simp

/-- Witness for C3: a four-activity trading stream (two in-window swaps
of coin A of 2 and 3 raw units, then an older activity) sums to 5, and
a four-record weekly stream with senders u, v, u in-window and one older
record counts 2 distinct senders. -/
theorem C3_witness :
    optLookup (tvLoop (streamFetch
        [[Act.mk 1 2 "A"], [Act.mk 1 3 "A", Act.mk (-5) 9 "B"]]) 0 1 0 []) "A" =
      some (Except.ok 5) ∧
    get_weekly_active_users (streamFetch
        [URec.mk "u" 5, URec.mk "v" 5, URec.mk "u" 6, URec.mk "w" (-1)]) 0 20 =
      some 2 :=
  ⟨C3_window_reduction.1 [[Act.mk 1 2 "A"]] [Act.mk 1 3 "A"] (Act.mk (-5) 9 "B")
      [] [] 0 (by decide) (by decide) (by decide) (by decide) (by decide) "A",
   C3_window_reduction.2 [URec.mk "u" 5, URec.mk "v" 5, URec.mk "u" 6]
      [URec.mk "w" (-1)] 0 (by decide) (by decide) (by decide) (by decide)⟩

end Backend
